import Mathlib

/-!
Shallow embedding of the ray tracer in `src/MCG_GFX_Framework/Main.cpp`.

Float arithmetic is modelled over the real numbers.  C++ `float -> int`
conversions (which truncate toward zero) are modelled by `truncR`.  The
triangle-area computations, which the source performs on `int` arguments
with an exact division by `2.0`, are modelled over `ℚ`.
-/

open scoped Classical

noncomputable section

namespace RayTracer

/-- Model of `glm::vec3` (float components modelled as reals). -/
@[ext] structure Vec3 where
  x : ℝ
  y : ℝ
  z : ℝ

/-- Model of `glm::vec2`. -/
@[ext] structure Vec2 where
  x : ℝ
  y : ℝ

instance : Zero Vec3 := ⟨⟨0, 0, 0⟩⟩
instance : Add Vec3 := ⟨fun a b => ⟨a.x + b.x, a.y + b.y, a.z + b.z⟩⟩
instance : Sub Vec3 := ⟨fun a b => ⟨a.x - b.x, a.y - b.y, a.z - b.z⟩⟩
instance : Neg Vec3 := ⟨fun a => ⟨-a.x, -a.y, -a.z⟩⟩
instance : SMul ℝ Vec3 := ⟨fun t a => ⟨t * a.x, t * a.y, t * a.z⟩⟩
instance : Add Vec2 := ⟨fun a b => ⟨a.x + b.x, a.y + b.y⟩⟩

@[simp] lemma zero_x : (0 : Vec3).x = 0 := rfl
@[simp] lemma zero_y : (0 : Vec3).y = 0 := rfl
@[simp] lemma zero_z : (0 : Vec3).z = 0 := rfl
@[simp] lemma add_x (a b : Vec3) : (a + b).x = a.x + b.x := rfl
@[simp] lemma add_y (a b : Vec3) : (a + b).y = a.y + b.y := rfl
@[simp] lemma add_z (a b : Vec3) : (a + b).z = a.z + b.z := rfl
@[simp] lemma sub_x (a b : Vec3) : (a - b).x = a.x - b.x := rfl
@[simp] lemma sub_y (a b : Vec3) : (a - b).y = a.y - b.y := rfl
@[simp] lemma sub_z (a b : Vec3) : (a - b).z = a.z - b.z := rfl
@[simp] lemma neg_x (a : Vec3) : (-a).x = -a.x := rfl
@[simp] lemma neg_y (a : Vec3) : (-a).y = -a.y := rfl
@[simp] lemma neg_z (a : Vec3) : (-a).z = -a.z := rfl
@[simp] lemma smul_x (t : ℝ) (a : Vec3) : (t • a).x = t * a.x := rfl
@[simp] lemma smul_y (t : ℝ) (a : Vec3) : (t • a).y = t * a.y := rfl
@[simp] lemma smul_z (t : ℝ) (a : Vec3) : (t • a).z = t * a.z := rfl
@[simp] lemma add2_x (a b : Vec2) : (a + b).x = a.x + b.x := rfl
@[simp] lemma add2_y (a b : Vec2) : (a + b).y = a.y + b.y := rfl

/-- C++ `float`-to-`int` conversion: truncation toward zero. -/
def truncR (r : ℝ) : ℤ := if 0 ≤ r then ⌊r⌋ else ⌈r⌉

/-- Dot product of two `glm::vec3` values (`glm::dot`). -/
def dotV (a b : Vec3) : ℝ := a.x * b.x + a.y * b.y + a.z * b.z

/-- Model of `glm::length`: Euclidean length of a vector. -/
def vlength (v : Vec3) : ℝ := Real.sqrt (dotV v v)

/-- Model of `glm::normalize`: the vector divided by its length. -/
def normalizeV (v : Vec3) : Vec3 := (1 / vlength v) • v

/-- The `HitData` struct: a hit flag and the point of first intersection. -/
structure HitData where
  mHit : Bool
  mFirstIntersection : Vec3

/-- The `Ray` class: an origin and a direction. -/
structure Ray where
  mOrigin : Vec3
  mDirection : Vec3

/-- The `Sphere` shape: position, radius (stored as a float) and colour. -/
structure Sphere where
  mPos : Vec3
  mRadius : ℝ
  mColour : Vec3

/-- `Sphere::GetRadius` has return type `int` although the radius is stored
as a `float`, so it returns the truncation of the stored radius. -/
def Sphere.GetRadius (s : Sphere) : ℤ := truncR s.mRadius

/-- The `Rectangle` shape: centre position, width, height and colour. -/
structure Rectangle where
  mPos : Vec3
  mWidth : ℝ
  mHeight : ℝ
  mColour : Vec3

/-- The `Circle` shape: centre position, radius and colour. -/
structure Circle where
  mPos : Vec3
  mRadius : ℝ
  mColour : Vec3

/-- The `Triangle` shape: position (the z component fixes the plane),
three 2D corner points and a colour. -/
structure Triangle where
  mPos : Vec3
  mAPos : Vec2
  mBPos : Vec2
  mCPos : Vec2
  mColour : Vec3

/-- `get_point_at_z`: the point of the ray at the given z coordinate,
obtained by dividing the z travel distance by the direction's z component. -/
def get_point_at_z (ray : Ray) (z : ℝ) : Vec3 :=
  let travel_distance := z - ray.mOrigin.z
  let vector_multiplier := travel_distance / ray.mDirection.z
  ray.mOrigin + vector_multiplier • ray.mDirection

/-- `area_of_triangle`: area computed from integer corner coordinates;
the integer cross-product expression is divided by `2.0` and then the
absolute value is taken.  The arithmetic is exact, modelled over `ℚ`. -/
def area_of_triangle (x1 y1 x2 y2 x3 y3 : ℤ) : ℚ :=
  |((x1 * (y2 - y3) + x2 * (y3 - y1) + x3 * (y1 - y2) : ℤ) : ℚ) / 2|

/-- `point_inside_triangle`: a point is inside the triangle iff the areas
of the three sub-triangles sum exactly to the area of the whole triangle. -/
def point_inside_triangle (x1 y1 x2 y2 x3 y3 px py : ℤ) : Bool :=
  decide (area_of_triangle x1 y1 x2 y2 x3 y3 =
    area_of_triangle px py x2 y2 x3 y3 +
    area_of_triangle x1 y1 px py x3 y3 +
    area_of_triangle x1 y1 x2 y2 px py)

/-- `get_ray_triangle_intersection`: crossing point with the z-plane,
then the integer-area containment test (the float coordinates are
truncated by the implicit conversion to the `int` parameters). -/
def get_ray_triangle_intersection (ray : Ray) (z : ℝ) (pointA pointB pointC : Vec2) :
    HitData :=
  let intersect_point := get_point_at_z ray z
  if point_inside_triangle (truncR pointA.x) (truncR pointA.y)
      (truncR pointB.x) (truncR pointB.y) (truncR pointC.x) (truncR pointC.y)
      (truncR intersect_point.x) (truncR intersect_point.y) = true then
    ⟨true, intersect_point⟩
  else
    ⟨false, intersect_point⟩

/-- `get_ray_rectangle_intersection`: crossing point with the z-plane,
then an inclusive bounds check against the four rectangle boundaries. -/
def get_ray_rectangle_intersection (ray : Ray) (rect_pos : Vec3)
    (rect_width rect_height : ℝ) : HitData :=
  let intersect_point := get_point_at_z ray rect_pos.z
  let left_bd := rect_pos.x - rect_width / 2
  let right_bd := rect_pos.x + rect_width / 2
  let upper_bd := rect_pos.y - rect_height / 2
  let lower_bd := rect_pos.y + rect_height / 2
  if intersect_point.x ≥ left_bd ∧ intersect_point.x ≤ right_bd ∧
      intersect_point.y ≥ upper_bd ∧ intersect_point.y ≤ lower_bd then
    ⟨true, intersect_point⟩
  else
    ⟨false, intersect_point⟩

/-- `get_length_between_points`: Euclidean distance between two points. -/
def get_length_between_points (point1 point2 : Vec3) : ℝ :=
  vlength (point1 - point2)

/-- `get_ray_circle_intersection`: the bounding-square test followed by a
radial distance check. -/
def get_ray_circle_intersection (ray : Ray) (circle_pos : Vec3)
    (circle_radius : ℝ) : HitData :=
  let rect_hitdata :=
    get_ray_rectangle_intersection ray circle_pos (circle_radius * 2) (circle_radius * 2)
  if rect_hitdata.mHit = true ∧
      get_length_between_points rect_hitdata.mFirstIntersection circle_pos ≤ circle_radius then
    rect_hitdata
  else
    ⟨false, 0⟩

/-- `get_direction_difference`: half the distance between the two
normalized directions. -/
def get_direction_difference (dir1 dir2 : Vec3) : ℝ :=
  vlength (normalizeV dir1 - normalizeV dir2) / 2

/-- `get_normal_on_sphere`: normalized vector from the centre to the query
point. -/
def get_normal_on_sphere (sphere : Sphere) (queryPoint : Vec3) : Vec3 :=
  normalizeV (queryPoint - sphere.mPos)

/-- `check_inside_sphere`: the distance to the centre is stored in an
`int` local (truncating) and compared with the integer radius. -/
def check_inside_sphere (sphere : Sphere) (queryPoint : Vec3) : Bool :=
  let distanceToCentre : ℤ := truncR (vlength (sphere.mPos - queryPoint))
  if distanceToCentre ≤ sphere.GetRadius then true else false

/-- `check_ahead_ray`: the query point is ahead of the ray when the
normalized direction towards it is within `0.001` of the ray direction. -/
def check_ahead_ray (ray : Ray) (queryPoint : Vec3) : Bool :=
  let margin :=
    vlength (normalizeV ray.mDirection - normalizeV (queryPoint - ray.mOrigin))
  if margin < 1 / 1000 then true else false

/-- `get_closest_point_on_line`: projection of the query point onto the
ray's line. -/
def get_closest_point_on_line (line : Ray) (queryPoint : Vec3) : Vec3 :=
  line.mOrigin + (dotV (queryPoint - line.mOrigin) line.mDirection) • line.mDirection

/-- `get_ray_sphere_intersection`: origin-inside check, closest-point
construction, half-chord length (truncated by the `int x` local), ahead
check and the `d <= radius` comparison. -/
def get_ray_sphere_intersection (ray : Ray) (sphere : Sphere) : HitData :=
  let sphereCentre := sphere.mPos
  let sphereRadius : ℤ := sphere.GetRadius
  let a := ray.mOrigin
  let n := ray.mDirection
  let P := sphereCentre
  if check_inside_sphere sphere a = true then
    ⟨false, 0⟩
  else
    let closestPoint := get_closest_point_on_line ray sphereCentre
    let d := vlength (sphereCentre - closestPoint)
    let x : ℤ := truncR (Real.sqrt ((sphereRadius : ℝ) ^ 2 - d ^ 2))
    if check_ahead_ray ray closestPoint = false then
      ⟨false, 0⟩
    else if d ≤ (sphereRadius : ℝ) then
      ⟨true, a + (dotV (P - a) n - (x : ℝ)) • n⟩
    else
      ⟨false, 0⟩

/-- The brightness formula shared by every shape's `GetColourModifier`:
`pow(1 - get_direction_difference(lightDirection, dir), 2)`. -/
def shadingModifier (lightDirection dir : Vec3) : ℝ :=
  (1 - get_direction_difference lightDirection dir) ^ 2

/-- The closed set of shape variants (`BaseShape` subclasses). -/
inductive Shape where
  | sphere (s : Sphere)
  | rectangle (r : Rectangle)
  | circle (c : Circle)
  | triangle (t : Triangle)

/-- `BaseShape::GetColour` for each variant. -/
def Shape.GetColour : Shape → Vec3
  | .sphere s => s.mColour
  | .rectangle r => r.mColour
  | .circle c => c.mColour
  | .triangle t => t.mColour

/-- `GetColourModifier` for each variant: the sphere uses its surface
normal, the flat 2D shapes use the fixed normal `(0, 0, -1)`. -/
def Shape.GetColourModifier : Shape → Vec3 → Vec3 → ℝ
  | .sphere s, lightDirection, intersectionPoint =>
      shadingModifier lightDirection (get_normal_on_sphere s intersectionPoint)
  | .rectangle _, lightDirection, _ => shadingModifier lightDirection ⟨0, 0, -1⟩
  | .circle _, lightDirection, _ => shadingModifier lightDirection ⟨0, 0, -1⟩
  | .triangle _, lightDirection, _ => shadingModifier lightDirection ⟨0, 0, -1⟩

/-- `GetHit` for each variant, delegating to the intersection routines;
the triangle moves its corner points by its position first. -/
def Shape.GetHit : Shape → Ray → HitData
  | .sphere s, ray => get_ray_sphere_intersection ray s
  | .rectangle r, ray => get_ray_rectangle_intersection ray r.mPos r.mWidth r.mHeight
  | .circle c, ray => get_ray_circle_intersection ray c.mPos c.mRadius
  | .triangle t, ray =>
      let posAdj : Vec2 := ⟨t.mPos.x, t.mPos.y⟩
      get_ray_triangle_intersection ray t.mPos.z
        (t.mAPos + posAdj) (t.mBPos + posAdj) (t.mCPos + posAdj)

/-- The `Scene` class: a light direction and an ordered list of shapes. -/
structure Scene where
  mLightDirection : Vec3
  mShapes : List Shape

/-- `Scene::GetColourModifier` forwards to the shape with the scene's
light direction. -/
def Scene.GetColourModifier (scene : Scene) (shape : Shape)
    (intersectionPoint : Vec3) : ℝ :=
  shape.GetColourModifier scene.mLightDirection intersectionPoint

/-- One iteration of the loop body of `RayTracer::TraceRay`: keep the
current closest hit unless the new shape hits and is strictly closer (or
no hit has been recorded yet). -/
def traceStep (ray : Ray) (acc : HitData × Option Shape) (currentShape : Shape) :
    HitData × Option Shape :=
  let currentHitData := currentShape.GetHit ray
  if currentHitData.mHit = true then
    if acc.1.mHit = false ∨
        get_length_between_points currentHitData.mFirstIntersection ray.mOrigin <
          get_length_between_points acc.1.mFirstIntersection ray.mOrigin then
      (currentHitData, some currentShape)
    else
      acc
  else
    acc

/-- `RayTracer::TraceRay`: iterate over all shapes keeping the closest
hit, then return the winning shape's colour scaled by its colour
modifier, or black when nothing was hit. -/
def TraceRay (scene : Scene) (ray : Ray) : Vec3 :=
  let r := scene.mShapes.foldl (traceStep ray) (⟨false, 0⟩, none)
  if r.1.mHit = true then
    match r.2 with
    | some closestShape =>
        Scene.GetColourModifier scene closestShape r.1.mFirstIntersection •
          closestShape.GetColour
    | none => 0
  else
    0

/-- The `Camera` class fields. -/
structure Camera where
  mWindowSize : ℤ × ℤ
  mWindowCentre : ℤ × ℤ
  mViewingSize : ℤ × ℤ
  mXViewMultiplier : ℝ
  mYViewMultiplier : ℝ
  mXViewOffset : ℝ
  mYViewOffset : ℝ

/-- The `Camera` constructor: derive the per-axis multipliers and offsets
from the window size and the viewing size. -/
def mkCamera (windowSize viewingSize : ℤ × ℤ) : Camera where
  mWindowSize := windowSize
  mWindowCentre := (windowSize.1 / 2, windowSize.2 / 2)
  mViewingSize := viewingSize
  mXViewMultiplier := (viewingSize.1 : ℝ) / (windowSize.1 : ℝ)
  mYViewMultiplier := (viewingSize.2 : ℝ) / (windowSize.2 : ℝ)
  mXViewOffset := ((viewingSize.1 - windowSize.1 : ℤ) : ℝ) / 2
  mYViewOffset := ((viewingSize.2 - windowSize.2 : ℤ) : ℝ) / 2

/-- `Camera::GetRay`: source at the pixel with z = -1, lead point scaled
and offset with z = 20, direction the normalized difference. -/
def Camera.GetRay (cam : Camera) (pixelPosition : ℤ × ℤ) : Ray :=
  let source : Vec3 := ⟨(pixelPosition.1 : ℝ), (pixelPosition.2 : ℝ), -1⟩
  let lead : Vec3 :=
    ⟨(pixelPosition.1 : ℝ) * cam.mXViewMultiplier - cam.mXViewOffset,
     (pixelPosition.2 : ℝ) * cam.mYViewMultiplier - cam.mYViewOffset, 20⟩
  ⟨source, normalizeV (lead - source)⟩

/-! ### Basic vector algebra lemmas -/

lemma vadd_sub_cancel (a b : Vec3) : a + (b - a) = b := by
  ext <;> simp

lemma vadd_sub_cancel_left (a v : Vec3) : a + v - a = v := by
  ext <;> simp

lemma vsub_self (a : Vec3) : a - a = 0 := by
  ext <;> simp

lemma vsub_zero (a : Vec3) : a - 0 = a := by
  ext <;> simp

lemma vsub_neg_self (w : Vec3) : w - -w = (2 : ℝ) • w := by
  ext <;> simp <;> ring

lemma vsmul_vsmul (s t : ℝ) (v : Vec3) : s • t • v = (s * t) • v := by
  ext <;> simp <;> ring

lemma one_vsmul (v : Vec3) : (1 : ℝ) • v = v := by
  ext <;> simp

lemma dotV_self_nonneg (v : Vec3) : 0 ≤ dotV v v := by
  simp only [dotV]
  nlinarith [sq_nonneg v.x, sq_nonneg v.y, sq_nonneg v.z]

lemma dotV_smul_right (t : ℝ) (u v : Vec3) : dotV u (t • v) = t * dotV u v := by
  simp only [dotV, smul_x, smul_y, smul_z]
  ring

lemma vlength_nonneg (v : Vec3) : 0 ≤ vlength v := Real.sqrt_nonneg _

lemma vlength_zero : vlength (0 : Vec3) = 0 := by
  simp [vlength, dotV]

lemma sq_vlength (v : Vec3) : vlength v ^ 2 = dotV v v :=
  Real.sq_sqrt (dotV_self_nonneg v)

lemma dotV_self_pos (v : Vec3) (h : v ≠ 0) : 0 < dotV v v := by
  rcases lt_or_eq_of_le (dotV_self_nonneg v) with hlt | heq
  · exact hlt
  · exfalso
    apply h
    have hx : v.x = 0 ∧ v.y = 0 ∧ v.z = 0 := by
      simp only [dotV] at heq
      refine ⟨by nlinarith, by nlinarith, by nlinarith⟩
    ext <;> simp [hx.1, hx.2.1, hx.2.2]

lemma vlength_pos (v : Vec3) (h : v ≠ 0) : 0 < vlength v :=
  Real.sqrt_pos.mpr (dotV_self_pos v h)

lemma vlength_smul (t : ℝ) (v : Vec3) : vlength (t • v) = |t| * vlength v := by
  have h : dotV (t • v) (t • v) = t ^ 2 * dotV v v := by
    simp only [dotV, smul_x, smul_y, smul_z]
    ring
  rw [vlength, h, Real.sqrt_mul (sq_nonneg t), Real.sqrt_sq_eq_abs, vlength]

lemma vlength_neg (v : Vec3) : vlength (-v) = vlength v := by
  have h : dotV (-v) (-v) = dotV v v := by
    simp only [dotV, neg_x, neg_y, neg_z]
    ring
  rw [vlength, h, vlength]

lemma vlength_normalizeV (v : Vec3) (h : v ≠ 0) : vlength (normalizeV v) = 1 := by
  have hpos := vlength_pos v h
  rw [normalizeV, vlength_smul, abs_of_pos (one_div_pos.mpr hpos)]
  field_simp

lemma normalizeV_smul_pos (t : ℝ) (v : Vec3) (ht : 0 < t) (hv : v ≠ 0) :
    normalizeV (t • v) = normalizeV v := by
  have hpos := vlength_pos v hv
  rw [normalizeV, normalizeV, vlength_smul, abs_of_pos ht, vsmul_vsmul]
  congr 1
  field_simp

lemma normalizeV_smul_neg (t : ℝ) (v : Vec3) (ht : t < 0) (hv : v ≠ 0) :
    normalizeV (t • v) = -normalizeV v := by
  have hpos := vlength_pos v hv
  have ht0 : t ≠ 0 := ne_of_lt ht
  have hL0 : vlength v ≠ 0 := ne_of_gt hpos
  have habs : |t| = -t := abs_of_neg ht
  rw [normalizeV, normalizeV, vlength_smul, habs, vsmul_vsmul]
  ext <;> simp <;> field_simp <;> ring

lemma normalizeV_idem (v : Vec3) (h : v ≠ 0) : normalizeV (normalizeV v) = normalizeV v := by
  have h1 : vlength (normalizeV v) = 1 := vlength_normalizeV v h
  rw [normalizeV, h1]
  norm_num [one_vsmul]

lemma normalizeV_neg (v : Vec3) : normalizeV (-v) = -normalizeV v := by
  rw [normalizeV, normalizeV, vlength_neg]
  ext <;> simp

/-- Cauchy-Schwarz for the three-component dot product. -/
lemma dotV_le_vlength_mul (a b : Vec3) : dotV a b ≤ vlength a * vlength b := by
  have hsq : dotV a b ^ 2 ≤ dotV a a * dotV b b := by
    simp only [dotV]
    nlinarith [sq_nonneg (a.x * b.y - a.y * b.x), sq_nonneg (a.x * b.z - a.z * b.x),
      sq_nonneg (a.y * b.z - a.z * b.y)]
  have h1 : dotV a b ≤ |dotV a b| := le_abs_self _
  have h2 : |dotV a b| = Real.sqrt (dotV a b ^ 2) := (Real.sqrt_sq_eq_abs _).symm
  have h3 : Real.sqrt (dotV a b ^ 2) ≤ Real.sqrt (dotV a a * dotV b b) :=
    Real.sqrt_le_sqrt hsq
  have h4 : Real.sqrt (dotV a a * dotV b b) = vlength a * vlength b := by
    rw [Real.sqrt_mul (dotV_self_nonneg a), vlength, vlength]
  linarith [h1, h2 ▸ h3, h4 ▸ h3]

/-- Triangle-type inequality: the length of a difference is at most the sum
of the lengths. -/
lemma vlength_sub_le (a b : Vec3) : vlength (a - b) ≤ vlength a + vlength b := by
  have hdot : dotV (a - b) (a - b) = dotV a a - 2 * dotV a b + dotV b b := by
    simp only [dotV, sub_x, sub_y, sub_z]
    ring
  have hcs : dotV a (-b) ≤ vlength a * vlength (-b) := dotV_le_vlength_mul a (-b)
  have hneg : dotV a (-b) = -dotV a b := by
    simp only [dotV, neg_x, neg_y, neg_z]
    ring
  rw [hneg, vlength_neg] at hcs
  have hle : dotV (a - b) (a - b) ≤ (vlength a + vlength b) ^ 2 := by
    have h2 : vlength a ^ 2 = dotV a a := sq_vlength a
    have h3 : vlength b ^ 2 = dotV b b := sq_vlength b
    nlinarith [hcs, h2, h3]
  calc vlength (a - b) = Real.sqrt (dotV (a - b) (a - b)) := rfl
    _ ≤ Real.sqrt ((vlength a + vlength b) ^ 2) := Real.sqrt_le_sqrt hle
    _ = vlength a + vlength b := by
        rw [Real.sqrt_sq (add_nonneg (vlength_nonneg a) (vlength_nonneg b))]

/-! ### Truncation lemmas -/

lemma truncR_intCast (m : ℤ) : truncR (m : ℝ) = m := by
  unfold truncR
  split
  · exact Int.floor_intCast m
  · exact Int.ceil_intCast m

lemma truncR_of_nonneg (r : ℝ) (h : 0 ≤ r) : truncR r = ⌊r⌋ := by
  simp [truncR, h]

lemma truncR_nonneg (r : ℝ) (h : 0 ≤ r) : 0 ≤ truncR r := by
  rw [truncR_of_nonneg r h]
  exact Int.floor_nonneg.mpr h

lemma truncR_mono_nonneg (a b : ℝ) (ha : 0 ≤ a) (hab : a ≤ b) :
    truncR a ≤ truncR b := by
  rw [truncR_of_nonneg a ha, truncR_of_nonneg b (le_trans ha hab)]
  exact Int.floor_le_floor hab

lemma truncR_le_self (r : ℝ) (h : 0 ≤ r) : (truncR r : ℝ) ≤ r := by
  rw [truncR_of_nonneg r h]
  exact Int.floor_le r

/-- Length of a vector lying on the z axis. -/
lemma truncR_eq_of_bounds (r : ℝ) (n : ℤ) (h0 : 0 ≤ r) (h1 : (n : ℝ) ≤ r)
    (h2 : r < n + 1) : truncR r = n := by
  rw [truncR_of_nonneg r h0]
  exact Int.floor_eq_iff.mpr ⟨h1, by exact_mod_cast h2⟩

lemma vlength_zAxis (t : ℝ) : vlength ⟨0, 0, t⟩ = |t| := by
  simp only [vlength, dotV]
  rw [show (0 : ℝ) * 0 + 0 * 0 + t * t = t ^ 2 by ring, Real.sqrt_sq_eq_abs]

lemma normalizeV_zAxis (t : ℝ) (h : 0 < t) : normalizeV ⟨0, 0, t⟩ = ⟨0, 0, 1⟩ := by
  rw [normalizeV, vlength_zAxis, abs_of_pos h]
  ext <;> simp
  field_simp

lemma vsub_eq_zero_iff (a b : Vec3) : a - b = 0 ↔ a = b := by
  constructor
  · intro h
    have hx := congrArg Vec3.x h
    have hy := congrArg Vec3.y h
    have hz := congrArg Vec3.z h
    simp only [sub_x, sub_y, sub_z, zero_x, zero_y, zero_z] at hx hy hz
    ext <;> linarith
  · intro h
    rw [h]
    exact vsub_self b

lemma dotV_normalizeV_self (v : Vec3) (h : v ≠ 0) : dotV v (normalizeV v) = vlength v := by
  have hL := vlength_pos v h
  rw [normalizeV, dotV_smul_right, ← sq_vlength]
  field_simp
  ring

/-- Evaluation of the sphere intersection for a ray whose direction is the
unit vector aimed at the sphere's centre from an origin the truncating
inside-test classifies as outside. -/
lemma sphere_aimed_at_centre_eval (s : Sphere) (ray : Ray)
    (hr : 0 ≤ s.mRadius)
    (hne : ray.mOrigin ≠ s.mPos)
    (hdir : ray.mDirection = normalizeV (s.mPos - ray.mOrigin))
    (hout : truncR s.mRadius < truncR (vlength (s.mPos - ray.mOrigin))) :
    (get_ray_sphere_intersection ray s).mHit = true ∧
      get_length_between_points
          (get_ray_sphere_intersection ray s).mFirstIntersection ray.mOrigin =
        vlength (s.mPos - ray.mOrigin) - (s.GetRadius : ℝ) := by
  have hw : s.mPos - ray.mOrigin ≠ 0 := fun h => hne ((vsub_eq_zero_iff _ _).mp h).symm
  have hL : 0 < vlength (s.mPos - ray.mOrigin) := vlength_pos _ hw
  have hinside : check_inside_sphere s ray.mOrigin = false := by
    unfold check_inside_sphere Sphere.GetRadius
    rw [if_neg]
    exact not_le.mpr hout
  have hdot : dotV (s.mPos - ray.mOrigin) ray.mDirection =
      vlength (s.mPos - ray.mOrigin) := by
    rw [hdir]
    exact dotV_normalizeV_self _ hw
  have hcp : get_closest_point_on_line ray s.mPos = s.mPos := by
    unfold get_closest_point_on_line
    rw [hdot, hdir, normalizeV, vsmul_vsmul,
      show vlength (s.mPos - ray.mOrigin) * (1 / vlength (s.mPos - ray.mOrigin)) = 1 by
        field_simp,
      one_vsmul]
    exact vadd_sub_cancel _ _
  have hahead : check_ahead_ray ray (get_closest_point_on_line ray s.mPos) = true := by
    unfold check_ahead_ray
    rw [hcp]
    have h1 : normalizeV ray.mDirection = normalizeV (s.mPos - ray.mOrigin) := by
      rw [hdir]
      exact normalizeV_idem _ hw
    rw [h1, vsub_self, vlength_zero, if_pos (by norm_num)]
  have hR0 : (0 : ℤ) ≤ s.GetRadius := truncR_nonneg _ hr
  have hRle : (s.GetRadius : ℝ) ≤ vlength (s.mPos - ray.mOrigin) := by
    have h1 : (s.GetRadius : ℝ) < (truncR (vlength (s.mPos - ray.mOrigin)) : ℝ) := by
      exact_mod_cast hout
    have h2 := truncR_le_self _ (le_of_lt hL)
    linarith
  have hmain : get_ray_sphere_intersection ray s =
      ⟨true, ray.mOrigin +
        (vlength (s.mPos - ray.mOrigin) - (s.GetRadius : ℝ)) • ray.mDirection⟩ := by
    have hahead2 : check_ahead_ray ray s.mPos = true := by
      rw [← hcp]
      exact hahead
    unfold get_ray_sphere_intersection
    simp only [hinside, hcp, hahead2, hdot, vsub_self, vlength_zero, Bool.false_eq_true,
      Bool.true_eq_false, if_false, ite_false, ite_true]
    rw [if_pos (by exact_mod_cast hR0)]
    have hxeq : truncR (Real.sqrt ((s.GetRadius : ℝ) ^ 2 - 0 ^ 2)) = s.GetRadius := by
      rw [show ((0 : ℝ) ^ 2 = 0) by norm_num, sub_zero,
        Real.sqrt_sq (by exact_mod_cast hR0)]
      exact truncR_intCast _
    rw [hxeq]
  constructor
  · rw [hmain]
  · rw [hmain]
    unfold get_length_between_points
    rw [show (⟨true, ray.mOrigin +
        (vlength (s.mPos - ray.mOrigin) - (s.GetRadius : ℝ)) • ray.mDirection⟩ :
          HitData).mFirstIntersection = ray.mOrigin +
        (vlength (s.mPos - ray.mOrigin) - (s.GetRadius : ℝ)) • ray.mDirection from rfl,
      vadd_sub_cancel_left, vlength_smul, hdir, vlength_normalizeV _ hw, mul_one]
    exact abs_of_nonneg (sub_nonneg.mpr hRle)

/-- A sphere whose centre lies strictly behind the ray (negative dot
product with the direction) is never hit: the ahead-check rejects the
closest point. -/
lemma sphere_behind_no_hit (s : Sphere) (ray : Ray)
    (hbehind : dotV (s.mPos - ray.mOrigin) ray.mDirection < 0) :
    get_ray_sphere_intersection ray s = ⟨false, 0⟩ := by
  by_cases hin : check_inside_sphere s ray.mOrigin = true
  · unfold get_ray_sphere_intersection
    simp only [hin, ite_true, if_true]
  · have hin2 : check_inside_sphere s ray.mOrigin = false := by
      simpa using hin
    have hn : ray.mDirection ≠ 0 := by
      intro h
      rw [h] at hbehind
      simp [dotV] at hbehind
    have hcp : get_closest_point_on_line ray s.mPos - ray.mOrigin =
        dotV (s.mPos - ray.mOrigin) ray.mDirection • ray.mDirection := by
      unfold get_closest_point_on_line
      exact vadd_sub_cancel_left _ _
    have hahead : check_ahead_ray ray (get_closest_point_on_line ray s.mPos) = false := by
      unfold check_ahead_ray
      rw [hcp, normalizeV_smul_neg _ _ hbehind hn, vsub_neg_self, vlength_smul,
        vlength_normalizeV _ hn, if_neg]
      norm_num
    unfold get_ray_sphere_intersection
    simp only [hin2, Bool.false_eq_true, if_false, hahead, ite_true, ite_false]

/-! ### Lemmas about the `TraceRay` loop -/

lemma traceStep_miss (ray : Ray) (acc : HitData × Option Shape) (s : Shape)
    (h : (s.GetHit ray).mHit = false) : traceStep ray acc s = acc := by
  simp [traceStep, h]

lemma foldl_traceStep_nohits (ray : Ray) (l : List Shape)
    (acc : HitData × Option Shape)
    (h : ∀ s ∈ l, (s.GetHit ray).mHit = false) :
    l.foldl (traceStep ray) acc = acc := by
  induction l generalizing acc with
  | nil => rfl
  | cons x xs ih =>
      rw [List.foldl_cons, traceStep_miss ray acc x (h x (List.mem_cons_self x xs))]
      exact ih acc fun s hs => h s (List.mem_cons_of_mem x hs)

lemma foldl_traceStep_keep (ray : Ray) (l : List Shape) (hd : HitData) (s : Shape)
    (hhd : hd.mHit = true)
    (h : ∀ t ∈ l, (t.GetHit ray).mHit = true →
      get_length_between_points hd.mFirstIntersection ray.mOrigin ≤
        get_length_between_points (t.GetHit ray).mFirstIntersection ray.mOrigin) :
    l.foldl (traceStep ray) (hd, some s) = (hd, some s) := by
  induction l with
  | nil => rfl
  | cons x xs ih =>
      rw [List.foldl_cons]
      have hstep : traceStep ray (hd, some s) x = (hd, some s) := by
        by_cases hx : (x.GetHit ray).mHit = true
        · have hle := h x (List.mem_cons_self x xs) hx
          simp only [traceStep, hx, if_true]
          rw [if_neg]
          push_neg
          constructor
          · simp [hhd]
          · exact hle
        · exact traceStep_miss ray _ x (by simpa using hx)
      rw [hstep]
      exact ih fun t ht => h t (List.mem_cons_of_mem x ht)

lemma foldl_traceStep_cases (ray : Ray) (l : List Shape) :
    ∀ acc : HitData × Option Shape,
      l.foldl (traceStep ray) acc = acc ∨
        ∃ t ∈ l, (t.GetHit ray).mHit = true ∧
          l.foldl (traceStep ray) acc = (t.GetHit ray, some t) := by
  induction l with
  | nil => intro acc; exact Or.inl rfl
  | cons x xs ih =>
      intro acc
      rw [List.foldl_cons]
      have hstep : traceStep ray acc x = acc ∨
          ((x.GetHit ray).mHit = true ∧ traceStep ray acc x = (x.GetHit ray, some x)) := by
        by_cases hx : (x.GetHit ray).mHit = true
        · by_cases hcond : acc.1.mHit = false ∨
              get_length_between_points (x.GetHit ray).mFirstIntersection ray.mOrigin <
                get_length_between_points acc.1.mFirstIntersection ray.mOrigin
          · refine Or.inr ⟨hx, ?_⟩
            simp only [traceStep, hx, if_true]
            rw [if_pos hcond]
          · refine Or.inl ?_
            simp only [traceStep, hx, if_true]
            rw [if_neg hcond]
        · exact Or.inl (traceStep_miss ray acc x (by simpa using hx))
      rcases hstep with hstep | ⟨hxhit, hstep⟩
      · rw [hstep]
        rcases ih acc with h1 | ⟨t, ht, hthit, h1⟩
        · exact Or.inl h1
        · exact Or.inr ⟨t, List.mem_cons_of_mem x ht, hthit, h1⟩
      · rw [hstep]
        rcases ih (x.GetHit ray, some x) with h1 | ⟨t, ht, hthit, h1⟩
        · exact Or.inr ⟨x, List.mem_cons_self x xs, hxhit, h1⟩
        · exact Or.inr ⟨t, List.mem_cons_of_mem x ht, hthit, h1⟩

/-! ### Claim theorems -/

/-- C1: `TraceRay` tests every shape in scene order and, among all shapes
whose intersection test reports a hit, returns the colour (scaled by the
shading modifier) of the shape whose hit point has the smallest Euclidean
distance to the ray origin; at equal minimal distance the shape
encountered first in scene order wins, because a strict `<` comparison is
used to replace the current closest hit.  The winning shape `s` is
described by a decomposition `l₁ ++ s :: l₂` of the scene: every shape in
`l₁` (tested before `s`) either misses or hits strictly farther away, and
every hitting shape of the scene hits at least as far away as `s`. -/
theorem C1_nearest_hit_selection (scene : Scene) (ray : Ray)
    (l₁ l₂ : List Shape) (s : Shape)
    (hdecomp : scene.mShapes = l₁ ++ s :: l₂)
    (hhit : (s.GetHit ray).mHit = true)
    (hmin : ∀ t ∈ scene.mShapes, (t.GetHit ray).mHit = true →
      get_length_between_points (s.GetHit ray).mFirstIntersection ray.mOrigin ≤
        get_length_between_points (t.GetHit ray).mFirstIntersection ray.mOrigin)
    (hfirst : ∀ t ∈ l₁, (t.GetHit ray).mHit = true →
      get_length_between_points (s.GetHit ray).mFirstIntersection ray.mOrigin <
        get_length_between_points (t.GetHit ray).mFirstIntersection ray.mOrigin) :
    TraceRay scene ray =
      Scene.GetColourModifier scene s (s.GetHit ray).mFirstIntersection •
        s.GetColour := by
  have hl2 : ∀ t ∈ l₂, (t.GetHit ray).mHit = true →
      get_length_between_points (s.GetHit ray).mFirstIntersection ray.mOrigin ≤
        get_length_between_points (t.GetHit ray).mFirstIntersection ray.mOrigin := by
    intro t ht
    exact hmin t (by rw [hdecomp]; exact List.mem_append_right l₁ (List.mem_cons_of_mem s ht))
  have hfold : scene.mShapes.foldl (traceStep ray) (⟨false, 0⟩, none) =
      (s.GetHit ray, some s) := by
    rw [hdecomp, List.foldl_append]
    rcases foldl_traceStep_cases ray l₁ (⟨false, 0⟩, none) with hA | ⟨t, ht, hthit, hA⟩
    · rw [hA, List.foldl_cons]
      have hstep : traceStep ray (⟨false, 0⟩, none) s = (s.GetHit ray, some s) := by
        simp [traceStep, hhit]
      rw [hstep]
      exact foldl_traceStep_keep ray l₂ (s.GetHit ray) s hhit hl2
    · rw [hA, List.foldl_cons]
      have hlt := hfirst t ht hthit
      have hstep : traceStep ray (t.GetHit ray, some t) s = (s.GetHit ray, some s) := by
        simp only [traceStep, hhit, if_true]
        rw [if_pos (Or.inr hlt)]
      rw [hstep]
      exact foldl_traceStep_keep ray l₂ (s.GetHit ray) s hhit hl2
  unfold TraceRay
  rw [hfold]
  simp [hhit]

/-- Witness for C1 at a concrete one-rectangle scene. -/
theorem C1_nearest_hit_selection_witness :
    TraceRay ⟨⟨0, 0, -1⟩, [Shape.rectangle ⟨⟨0, 0, 5⟩, 2, 2, ⟨1, 0, 0⟩⟩]⟩
        ⟨0, ⟨0, 0, 1⟩⟩ =
      Scene.GetColourModifier ⟨⟨0, 0, -1⟩, [Shape.rectangle ⟨⟨0, 0, 5⟩, 2, 2, ⟨1, 0, 0⟩⟩]⟩
          (Shape.rectangle ⟨⟨0, 0, 5⟩, 2, 2, ⟨1, 0, 0⟩⟩)
          ((Shape.rectangle ⟨⟨0, 0, 5⟩, 2, 2, ⟨1, 0, 0⟩⟩).GetHit ⟨0, ⟨0, 0, 1⟩⟩).mFirstIntersection •
        (Shape.rectangle ⟨⟨0, 0, 5⟩, 2, 2, ⟨1, 0, 0⟩⟩).GetColour := by
  have hhit : ((Shape.rectangle ⟨⟨0, 0, 5⟩, 2, 2, ⟨1, 0, 0⟩⟩).GetHit
      ⟨0, ⟨0, 0, 1⟩⟩).mHit = true := by
    have hpt : get_point_at_z ⟨0, ⟨0, 0, 1⟩⟩ (5 : ℝ) = ⟨0, 0, 5⟩ := by
      unfold get_point_at_z
      ext <;> norm_num
    simp only [Shape.GetHit, get_ray_rectangle_intersection, hpt]
    rw [if_pos]
    norm_num
  exact C1_nearest_hit_selection _ _ [] [] _ rfl hhit
    (by
      intro t ht _
      simp only [List.mem_singleton] at ht
      subst ht
      exact le_refl _)
    (by intro t ht; simp at ht)

/-- C2 (amended): for every sphere with non-negative radius and every ray
whose origin differs from the centre, is classified as outside by the
code's truncating inside-test (truncated distance exceeds the truncated
radius), and whose direction is the unit vector aimed directly at the
centre, the sphere intersection reports a hit whose distance from the ray
origin equals `distance(origin, centre) - GetRadius()`, i.e. the distance
minus the integer-truncated radius (not the stored float radius). -/
theorem C2_aimed_at_centre_hit_distance (s : Sphere) (ray : Ray)
    (hr : 0 ≤ s.mRadius)
    (hne : ray.mOrigin ≠ s.mPos)
    (hdir : ray.mDirection = normalizeV (s.mPos - ray.mOrigin))
    (hout : truncR s.mRadius < truncR (vlength (s.mPos - ray.mOrigin))) :
    (get_ray_sphere_intersection ray s).mHit = true ∧
      get_length_between_points
          (get_ray_sphere_intersection ray s).mFirstIntersection ray.mOrigin =
        vlength (s.mPos - ray.mOrigin) - (s.GetRadius : ℝ) :=
  sphere_aimed_at_centre_eval s ray hr hne hdir hout

/-- Witness for C2 at a concrete sphere of radius 2 centred five units
ahead of the ray origin. -/
theorem C2_aimed_at_centre_hit_distance_witness :
    (get_ray_sphere_intersection ⟨0, ⟨0, 0, 1⟩⟩ ⟨⟨0, 0, 5⟩, 2, ⟨0, 1, 0⟩⟩).mHit = true ∧
      get_length_between_points
          (get_ray_sphere_intersection ⟨0, ⟨0, 0, 1⟩⟩
            ⟨⟨0, 0, 5⟩, 2, ⟨0, 1, 0⟩⟩).mFirstIntersection (0 : Vec3) =
        vlength ((⟨0, 0, 5⟩ : Vec3) - (0 : Vec3)) -
          ((Sphere.GetRadius ⟨⟨0, 0, 5⟩, 2, ⟨0, 1, 0⟩⟩ : ℤ) : ℝ) := by
  have h5 : (⟨0, 0, 5⟩ : Vec3) - (0 : Vec3) = ⟨0, 0, 5⟩ := vsub_zero _
  refine C2_aimed_at_centre_hit_distance ⟨⟨0, 0, 5⟩, 2, ⟨0, 1, 0⟩⟩ ⟨0, ⟨0, 0, 1⟩⟩
    (by norm_num) ?_ ?_ ?_
  · intro h
    have hz := congrArg Vec3.z h
    simp at hz
  · show (⟨0, 0, 1⟩ : Vec3) = normalizeV ((⟨0, 0, 5⟩ : Vec3) - (0 : Vec3))
    rw [h5, normalizeV_zAxis 5 (by norm_num)]
  · show truncR (2 : ℝ) < truncR (vlength ((⟨0, 0, 5⟩ : Vec3) - (0 : Vec3)))
    rw [h5, vlength_zAxis, abs_of_pos (by norm_num : (0:ℝ) < 5),
      truncR_eq_of_bounds (2 : ℝ) 2 (by norm_num) (by norm_num) (by norm_num),
      truncR_eq_of_bounds (5 : ℝ) 5 (by norm_num) (by norm_num) (by norm_num)]
    norm_num

/-- C2 counterexample: for a sphere of radius `3/2` centred three units
ahead, the ray aimed at the centre from an outside origin hits at distance
2 from the origin, not at `3 - 3/2`: the claim as stated (distance equals
`distance(origin, centre) - radius` for every sphere) is false, because
the code truncates the radius to an integer. -/
theorem C2_counterexample :
    ((3 : ℝ) / 2 < vlength ((⟨0, 0, 3⟩ : Vec3) - (0 : Vec3))) ∧
    (⟨0, 0, 1⟩ : Vec3) = normalizeV ((⟨0, 0, 3⟩ : Vec3) - (0 : Vec3)) ∧
    (get_ray_sphere_intersection ⟨0, ⟨0, 0, 1⟩⟩ ⟨⟨0, 0, 3⟩, 3 / 2, ⟨1, 0, 0⟩⟩).mHit = true ∧
    get_length_between_points
        (get_ray_sphere_intersection ⟨0, ⟨0, 0, 1⟩⟩
          ⟨⟨0, 0, 3⟩, 3 / 2, ⟨1, 0, 0⟩⟩).mFirstIntersection (0 : Vec3) ≠
      vlength ((⟨0, 0, 3⟩ : Vec3) - (0 : Vec3)) - 3 / 2 := by
  have h3 : (⟨0, 0, 3⟩ : Vec3) - (0 : Vec3) = ⟨0, 0, 3⟩ := vsub_zero _
  have hv3 : vlength ((⟨0, 0, 3⟩ : Vec3) - (0 : Vec3)) = 3 := by
    rw [h3, vlength_zAxis]
    norm_num
  have htr : truncR ((3 : ℝ) / 2) = 1 :=
    truncR_eq_of_bounds _ 1 (by norm_num) (by norm_num) (by norm_num)
  have heval := sphere_aimed_at_centre_eval ⟨⟨0, 0, 3⟩, 3 / 2, ⟨1, 0, 0⟩⟩ ⟨0, ⟨0, 0, 1⟩⟩
    (by norm_num)
    (by
      intro h
      have hz := congrArg Vec3.z h
      simp at hz)
    (by
      show (⟨0, 0, 1⟩ : Vec3) = normalizeV ((⟨0, 0, 3⟩ : Vec3) - (0 : Vec3))
      rw [h3, normalizeV_zAxis 3 (by norm_num)])
    (by
      show truncR ((3 : ℝ) / 2) < truncR (vlength ((⟨0, 0, 3⟩ : Vec3) - (0 : Vec3)))
      rw [htr, hv3, truncR_eq_of_bounds (3 : ℝ) 3 (by norm_num) (by norm_num) (by norm_num)]
      norm_num)
  have hrad : (Sphere.GetRadius ⟨⟨0, 0, 3⟩, 3 / 2, ⟨1, 0, 0⟩⟩ : ℝ) = 1 := by
    unfold Sphere.GetRadius
    rw [htr]
    norm_num
  refine ⟨by rw [hv3]; norm_num, ?_, heval.1, ?_⟩
  · rw [h3, normalizeV_zAxis 3 (by norm_num)]
  · rw [heval.2, hrad, hv3]
    norm_num

/-- C3 (amended): for every scene consisting only of spheres and every
ray whose origin lies strictly outside each sphere and whose direction
points away from each sphere's centre (negative dot product, so no sphere
lies ahead of the ray), `TraceRay` returns black `(0, 0, 0)`; absence of a
hit is a normal outcome, not an error. -/
theorem C3_away_rays_return_black (scene : Scene) (ray : Ray)
    (h : ∀ sh ∈ scene.mShapes, ∃ sp : Sphere, sh = Shape.sphere sp ∧
      sp.mRadius < vlength (ray.mOrigin - sp.mPos) ∧
      dotV (sp.mPos - ray.mOrigin) ray.mDirection < 0) :
    TraceRay scene ray = 0 := by
  have hmiss : ∀ sh ∈ scene.mShapes, (sh.GetHit ray).mHit = false := by
    intro sh hsh
    obtain ⟨sp, rfl, _, hbehind⟩ := h sh hsh
    show (get_ray_sphere_intersection ray sp).mHit = false
    rw [sphere_behind_no_hit sp ray hbehind]
  unfold TraceRay
  rw [foldl_traceStep_nohits ray _ _ hmiss]
  simp

/-- Witness for C3 at a concrete scene holding one sphere strictly behind
the ray. -/
theorem C3_away_rays_return_black_witness :
    TraceRay ⟨⟨0, 0, -1⟩, [Shape.sphere ⟨⟨0, 0, -5⟩, 1, ⟨1, 0, 0⟩⟩]⟩
      ⟨0, ⟨0, 0, 1⟩⟩ = 0 := by
  refine C3_away_rays_return_black _ _ ?_
  intro sh hsh
  simp only [List.mem_singleton] at hsh
  subst hsh
  refine ⟨⟨⟨0, 0, -5⟩, 1, ⟨1, 0, 0⟩⟩, rfl, ?_, ?_⟩
  · show (1 : ℝ) < vlength ((0 : Vec3) - ⟨0, 0, -5⟩)
    have : (0 : Vec3) - ⟨0, 0, -5⟩ = ⟨0, 0, 5⟩ := by
      ext <;> simp
    rw [this, vlength_zAxis]
    norm_num
  · show dotV ((⟨0, 0, -5⟩ : Vec3) - (0 : Vec3)) (⟨0, 0, 1⟩ : Vec3) < 0
    simp [dotV]

/-- C3 counterexample: a rectangle placed strictly behind the ray (its
plane at z = 5, the ray origin at z = 10 pointing towards larger z, so the
shape's centre has negative dot product with the direction) is still
reported as a hit, and `TraceRay` returns the rectangle's colour instead
of black: the claim as stated is false for planar shapes, whose
intersection test has no ahead-of-ray check. -/
theorem C3_counterexample :
    dotV ((⟨0, 0, 5⟩ : Vec3) - (⟨0, 0, 10⟩ : Vec3)) (⟨0, 0, 1⟩ : Vec3) < 0 ∧
    TraceRay ⟨⟨0, 0, -1⟩, [Shape.rectangle ⟨⟨0, 0, 5⟩, 2, 2, ⟨1, 0, 0⟩⟩]⟩
        ⟨⟨0, 0, 10⟩, ⟨0, 0, 1⟩⟩ = ⟨1, 0, 0⟩ ∧
    (⟨1, 0, 0⟩ : Vec3) ≠ (0 : Vec3) := by
  have hgethit : (Shape.rectangle ⟨⟨0, 0, 5⟩, 2, 2, ⟨1, 0, 0⟩⟩).GetHit
      ⟨⟨0, 0, 10⟩, ⟨0, 0, 1⟩⟩ = ⟨true, ⟨0, 0, 5⟩⟩ := by
    have hpt : get_point_at_z ⟨⟨0, 0, 10⟩, ⟨0, 0, 1⟩⟩ (5 : ℝ) = ⟨0, 0, 5⟩ := by
      unfold get_point_at_z
      ext <;> norm_num
    simp only [Shape.GetHit, get_ray_rectangle_intersection, hpt]
    rw [if_pos]
    norm_num
  have hmod : shadingModifier ⟨0, 0, -1⟩ ⟨0, 0, -1⟩ = 1 := by
    unfold shadingModifier get_direction_difference
    rw [vsub_self, vlength_zero]
    norm_num
  refine ⟨by simp [dotV]; norm_num, ?_, ?_⟩
  · unfold TraceRay
    rw [List.foldl_cons, List.foldl_nil]
    have hstep : traceStep ⟨⟨0, 0, 10⟩, ⟨0, 0, 1⟩⟩ (⟨false, 0⟩, none)
        (Shape.rectangle ⟨⟨0, 0, 5⟩, 2, 2, ⟨1, 0, 0⟩⟩) =
        (⟨true, ⟨0, 0, 5⟩⟩, some (Shape.rectangle ⟨⟨0, 0, 5⟩, 2, 2, ⟨1, 0, 0⟩⟩)) := by
      unfold traceStep
      rw [hgethit]
      rw [if_pos (by norm_num), if_pos (Or.inl rfl)]
    rw [hstep]
    show (if (true : Bool) = true then _ else _) = _
    rw [if_pos rfl]
    show Scene.GetColourModifier _ _ _ • _ = _
    unfold Scene.GetColourModifier
    show Shape.GetColourModifier _ _ _ • _ = _
    simp only [Shape.GetColourModifier, Shape.GetColour, hmod]
    exact one_vsmul _
  · intro h
    have hx := congrArg Vec3.x h
    simp at hx

/-- C4: the triangle intersection reports a hit if and only if the
crossing point `P` of the ray with the triangle's z-plane satisfies
`area(ABC) = area(PBC) + area(PAC) + area(PAB)` exactly, under the
integer-area formulation (all coordinates truncated to integers); when the
equality fails, no hit is reported. -/
theorem C4_triangle_area_containment (ray : Ray) (z : ℝ) (pointA pointB pointC : Vec2) :
    (get_ray_triangle_intersection ray z pointA pointB pointC).mHit = true ↔
      area_of_triangle (truncR pointA.x) (truncR pointA.y) (truncR pointB.x)
          (truncR pointB.y) (truncR pointC.x) (truncR pointC.y) =
        area_of_triangle (truncR (get_point_at_z ray z).x)
            (truncR (get_point_at_z ray z).y) (truncR pointB.x) (truncR pointB.y)
            (truncR pointC.x) (truncR pointC.y) +
          area_of_triangle (truncR pointA.x) (truncR pointA.y)
            (truncR (get_point_at_z ray z).x) (truncR (get_point_at_z ray z).y)
            (truncR pointC.x) (truncR pointC.y) +
          area_of_triangle (truncR pointA.x) (truncR pointA.y) (truncR pointB.x)
            (truncR pointB.y) (truncR (get_point_at_z ray z).x)
            (truncR (get_point_at_z ray z).y) := by
  by_cases h : area_of_triangle (truncR pointA.x) (truncR pointA.y) (truncR pointB.x)
      (truncR pointB.y) (truncR pointC.x) (truncR pointC.y) =
    area_of_triangle (truncR (get_point_at_z ray z).x) (truncR (get_point_at_z ray z).y)
        (truncR pointB.x) (truncR pointB.y) (truncR pointC.x) (truncR pointC.y) +
      area_of_triangle (truncR pointA.x) (truncR pointA.y)
        (truncR (get_point_at_z ray z).x) (truncR (get_point_at_z ray z).y)
        (truncR pointC.x) (truncR pointC.y) +
      area_of_triangle (truncR pointA.x) (truncR pointA.y) (truncR pointB.x)
        (truncR pointB.y) (truncR (get_point_at_z ray z).x)
        (truncR (get_point_at_z ray z).y)
  · simp [get_ray_triangle_intersection, point_inside_triangle, h]
  · simp [get_ray_triangle_intersection, point_inside_triangle, h]

/-- C5: for every sphere and every ray whose origin lies inside that
sphere, the intersection test returns the same no-hit value
`{ false, (0,0,0) }` as an ordinary miss, rather than an error or an
entry/exit pair. -/
theorem C5_origin_inside_no_hit (s : Sphere) (ray : Ray)
    (h : vlength (s.mPos - ray.mOrigin) < s.mRadius) :
    get_ray_sphere_intersection ray s = ⟨false, 0⟩ := by
  have h0 : (0 : ℝ) ≤ vlength (s.mPos - ray.mOrigin) := vlength_nonneg _
  have hin : check_inside_sphere s ray.mOrigin = true := by
    unfold check_inside_sphere Sphere.GetRadius
    rw [if_pos]
    exact truncR_mono_nonneg _ _ h0 (le_of_lt h)
  unfold get_ray_sphere_intersection
  simp only [hin, ite_true, if_true]

/-- Witness for C5: a ray starting one unit from the centre of a sphere
of radius 2. -/
theorem C5_origin_inside_no_hit_witness :
    get_ray_sphere_intersection ⟨⟨0, 0, 1⟩, ⟨0, 0, 1⟩⟩ ⟨⟨0, 0, 0⟩, 2, ⟨1, 0, 0⟩⟩ =
      ⟨false, 0⟩ := by
  refine C5_origin_inside_no_hit _ _ ?_
  show vlength ((⟨0, 0, 0⟩ : Vec3) - ⟨0, 0, 1⟩) < 2
  have hsub : (⟨0, 0, 0⟩ : Vec3) - ⟨0, 0, 1⟩ = ⟨0, 0, -1⟩ := by
    ext <;> simp
  rw [hsub, vlength_zAxis]
  norm_num

/-- C7: the rectangle containment test is inclusive on all four edges:
a crossing point lying exactly on the left or right bound (with its y
coordinate within the vertical bounds), or exactly on the upper or lower
bound (with its x coordinate within the horizontal bounds), is reported
as a hit. -/
theorem C7_rectangle_inclusive_bounds (ray : Ray) (rect_pos : Vec3)
    (rect_width rect_height : ℝ) (ip : Vec3)
    (hw : 0 ≤ rect_width) (hh : 0 ≤ rect_height)
    (hip : ip = get_point_at_z ray rect_pos.z)
    (hedge :
      ((ip.x = rect_pos.x - rect_width / 2 ∨ ip.x = rect_pos.x + rect_width / 2) ∧
        rect_pos.y - rect_height / 2 ≤ ip.y ∧ ip.y ≤ rect_pos.y + rect_height / 2) ∨
      ((ip.y = rect_pos.y - rect_height / 2 ∨ ip.y = rect_pos.y + rect_height / 2) ∧
        rect_pos.x - rect_width / 2 ≤ ip.x ∧ ip.x ≤ rect_pos.x + rect_width / 2)) :
    (get_ray_rectangle_intersection ray rect_pos rect_width rect_height).mHit = true := by
  have hcond : ip.x ≥ rect_pos.x - rect_width / 2 ∧ ip.x ≤ rect_pos.x + rect_width / 2 ∧
      ip.y ≥ rect_pos.y - rect_height / 2 ∧ ip.y ≤ rect_pos.y + rect_height / 2 := by
    rcases hedge with ⟨hx, hy1, hy2⟩ | ⟨hy, hx1, hx2⟩
    · rcases hx with hx | hx
      · exact ⟨hx.ge, by rw [hx]; linarith, hy1, hy2⟩
      · exact ⟨by rw [hx]; linarith, hx.le, hy1, hy2⟩
    · rcases hy with hy | hy
      · exact ⟨hx1, hx2, hy.ge, by rw [hy]; linarith⟩
      · exact ⟨hx1, hx2, by rw [hy]; linarith, hy.le⟩
  simp only [get_ray_rectangle_intersection]
  rw [← hip, if_pos hcond]

/-- Witness for C7: a ray crossing a rectangle exactly on its left bound. -/
theorem C7_rectangle_inclusive_bounds_witness :
    (get_ray_rectangle_intersection ⟨⟨-1, 0, 0⟩, ⟨0, 0, 1⟩⟩ ⟨0, 0, 5⟩ 2 2).mHit = true := by
  have hip : (⟨-1, 0, 5⟩ : Vec3) = get_point_at_z ⟨⟨-1, 0, 0⟩, ⟨0, 0, 1⟩⟩
      ((⟨0, 0, 5⟩ : Vec3).z) := by
    unfold get_point_at_z
    ext <;> norm_num
  refine C7_rectangle_inclusive_bounds _ _ _ _ ⟨-1, 0, 5⟩ (by norm_num) (by norm_num) hip ?_
  refine Or.inl ⟨Or.inl ?_, ?_, ?_⟩ <;> norm_num

/-- C8: the shading modifier `(1 - angular_difference(light, normal))^2`
with `angular_difference(u, v) = length(normalize(u) - normalize(v)) / 2`
satisfies `modifier(d, d) = 1` and `modifier(d, -d) = 0` for every unit
vector `d`, and lies in `[0, 1]` for every pair of non-zero vectors. -/
theorem C8_shading_modifier_range :
    (∀ d : Vec3, vlength d = 1 →
      shadingModifier d d = 1 ∧ shadingModifier d (-d) = 0) ∧
    (∀ u v : Vec3, u ≠ 0 → v ≠ 0 →
      0 ≤ shadingModifier u v ∧ shadingModifier u v ≤ 1) := by
  constructor
  · intro d hd
    have hd0 : d ≠ 0 := by
      intro h
      rw [h, vlength_zero] at hd
      norm_num at hd
    constructor
    · unfold shadingModifier get_direction_difference
      rw [vsub_self, vlength_zero]
      norm_num
    · unfold shadingModifier get_direction_difference
      rw [normalizeV_neg, vsub_neg_self, vlength_smul, vlength_normalizeV _ hd0]
      norm_num
  · intro u v hu hv
    have h1 : vlength (normalizeV u - normalizeV v) ≤ 2 := by
      have h2 := vlength_sub_le (normalizeV u) (normalizeV v)
      rw [vlength_normalizeV _ hu, vlength_normalizeV _ hv] at h2
      linarith
    have h0 : 0 ≤ vlength (normalizeV u - normalizeV v) := vlength_nonneg _
    unfold shadingModifier get_direction_difference
    refine ⟨sq_nonneg _, ?_⟩
    nlinarith [mul_nonneg h0 (by linarith : (0 : ℝ) ≤ 2 - vlength (normalizeV u - normalizeV v))]

/-- Witness for C8 at the unit vector `(0, 0, 1)`. -/
theorem C8_shading_modifier_range_witness :
    shadingModifier ⟨0, 0, 1⟩ ⟨0, 0, 1⟩ = 1 ∧
    shadingModifier ⟨0, 0, 1⟩ (-⟨0, 0, 1⟩) = 0 ∧
    0 ≤ shadingModifier ⟨0, 0, 1⟩ ⟨0, 0, 1⟩ ∧
    shadingModifier ⟨0, 0, 1⟩ ⟨0, 0, 1⟩ ≤ 1 := by
  have h1 : vlength (⟨0, 0, 1⟩ : Vec3) = 1 := by
    rw [vlength_zAxis]
    norm_num
  have hne : (⟨0, 0, 1⟩ : Vec3) ≠ 0 := by
    intro h
    have hz := congrArg Vec3.z h
    simp at hz
  obtain ⟨ha, hb⟩ := C8_shading_modifier_range.1 ⟨0, 0, 1⟩ h1
  obtain ⟨hc, hd⟩ := C8_shading_modifier_range.2 ⟨0, 0, 1⟩ ⟨0, 0, 1⟩ hne hne
  exact ⟨ha, hb, hc, hd⟩

/-- C9: constructing a `Camera` with viewing size equal to the window
size yields per-axis multipliers of 1 and offsets of 0, so `GetRay`
produces for every pixel a ray whose lead point is the pixel position
itself (at depth 20) and whose direction is the normalized difference of
lead and origin, with no viewport distortion. -/
theorem C9_camera_round_trip (ws : ℤ × ℤ) (hx : ws.1 ≠ 0) (hy : ws.2 ≠ 0) :
    (mkCamera ws ws).mXViewMultiplier = 1 ∧ (mkCamera ws ws).mYViewMultiplier = 1 ∧
    (mkCamera ws ws).mXViewOffset = 0 ∧ (mkCamera ws ws).mYViewOffset = 0 ∧
    ∀ px : ℤ × ℤ, (mkCamera ws ws).GetRay px =
      ⟨⟨(px.1 : ℝ), (px.2 : ℝ), -1⟩,
        normalizeV ((⟨(px.1 : ℝ), (px.2 : ℝ), 20⟩ : Vec3) -
          ⟨(px.1 : ℝ), (px.2 : ℝ), -1⟩)⟩ := by
  have hm1 : (mkCamera ws ws).mXViewMultiplier = 1 := by
    simp only [mkCamera]
    exact div_self (by exact_mod_cast hx)
  have hm2 : (mkCamera ws ws).mYViewMultiplier = 1 := by
    simp only [mkCamera]
    exact div_self (by exact_mod_cast hy)
  have ho1 : (mkCamera ws ws).mXViewOffset = 0 := by
    simp only [mkCamera]
    simp
  have ho2 : (mkCamera ws ws).mYViewOffset = 0 := by
    simp only [mkCamera]
    simp
  refine ⟨hm1, hm2, ho1, ho2, ?_⟩
  intro px
  simp only [Camera.GetRay]
  rw [hm1, hm2, ho1, ho2]
  congr 2
  ext <;> norm_num

/-- Witness for C9 at window size 640 by 480 and pixel (320, 240). -/
theorem C9_camera_round_trip_witness :
    (mkCamera (640, 480) (640, 480)).mXViewMultiplier = 1 ∧
    (mkCamera (640, 480) (640, 480)).mYViewMultiplier = 1 ∧
    (mkCamera (640, 480) (640, 480)).mXViewOffset = 0 ∧
    (mkCamera (640, 480) (640, 480)).mYViewOffset = 0 ∧
    (mkCamera (640, 480) (640, 480)).GetRay (320, 240) =
      ⟨⟨((320 : ℤ) : ℝ), ((240 : ℤ) : ℝ), -1⟩,
        normalizeV ((⟨((320 : ℤ) : ℝ), ((240 : ℤ) : ℝ), 20⟩ : Vec3) -
          ⟨((320 : ℤ) : ℝ), ((240 : ℤ) : ℝ), -1⟩)⟩ := by
  obtain ⟨ha, hb, hc, hd, he⟩ :=
    C9_camera_round_trip (640, 480) (by norm_num) (by norm_num)
  exact ⟨ha, hb, hc, hd, he (320, 240)⟩

/-- C10: every sphere geometric query uses the integer truncation of the
radius: the intersection test of a sphere with radius `r` behaves
identically to that of a sphere with the truncated radius, the
inside-sphere test does as well, and the inside-sphere test additionally
truncates the computed centre distance to an integer before comparing it
with the truncated radius. -/
theorem C10_sphere_radius_truncation (ray : Ray) (c : Vec3) (r : ℝ) (col q : Vec3) :
    get_ray_sphere_intersection ray ⟨c, r, col⟩ =
      get_ray_sphere_intersection ray ⟨c, ((truncR r : ℤ) : ℝ), col⟩ ∧
    check_inside_sphere ⟨c, r, col⟩ q =
      check_inside_sphere ⟨c, ((truncR r : ℤ) : ℝ), col⟩ q ∧
    (check_inside_sphere ⟨c, r, col⟩ q = true ↔
      truncR (vlength (c - q)) ≤ truncR r) := by
  have hrr : Sphere.GetRadius ⟨c, ((truncR r : ℤ) : ℝ), col⟩ =
      Sphere.GetRadius ⟨c, r, col⟩ := by
    unfold Sphere.GetRadius
    exact truncR_intCast _
  have hinside : ∀ p : Vec3, check_inside_sphere ⟨c, r, col⟩ p =
      check_inside_sphere ⟨c, ((truncR r : ℤ) : ℝ), col⟩ p := by
    intro p
    simp only [check_inside_sphere]
    rw [hrr]
  refine ⟨?_, hinside q, ?_⟩
  · simp only [get_ray_sphere_intersection]
    rw [hrr, hinside ray.mOrigin]
  · simp only [check_inside_sphere, Sphere.GetRadius]
    by_cases h : truncR (vlength (c - q)) ≤ truncR r
    · simp [h]
    · simp [h]

end RayTracer

end
